import Mathlib

/-!
Verification of the x690 BER/DER codec (x690/util.py and x690/types.py).

Byte buffers are modelled as `List Nat` (each element a byte value 0-255 as
produced by Python's `bytes`).  Python integers are `Int`/`Nat`; Python's
floor division `>>`/`//` on a positive divisor is `Int`'s `/` (ediv) and
`& 0xff` / `% 256` is `%` (emod), which agree with Python's semantics for a
positive modulus.  Fallible code (Python exceptions) is modelled with
`Except`/`Option`.
-/

/-- Errors raised by the codec: `IndexError` for out-of-range reads,
`NotImplementedError` for the reserved length form 0xFF and the long tag
form, `X690Error` for invalid slices, `UnexpectedType` for `enforce_type`
mismatches and `IncompleteDecoding` (carrying the remainder) for strict
decoding. -/
inductive DecodeErr where
  | indexError : DecodeErr
  | notImplemented : DecodeErr
  | x690Error : DecodeErr
  | unexpectedType : DecodeErr
  | incompleteDecoding (remainder : List Nat) : DecodeErr
deriving DecidableEq

deriving instance DecidableEq for Except

set_option maxRecDepth 8192

/-- Python slice-bound normalisation: a negative index counts from the end,
a nonnegative index is clamped to the length. -/
def pyIdx (len : Nat) (i : Int) : Nat :=
  if i < 0 then (i + len).toNat else min i.toNat len

/-- Python's `data[start:stop]` on a bytes object. -/
def pySlice (data : List Nat) (start stop : Int) : List Nat :=
  (data.take (pyIdx data.length stop)).drop (pyIdx data.length start)

/-- Python's `data[start:]`. -/
def pySliceFrom (data : List Nat) (start : Int) : List Nat :=
  data.drop (pyIdx data.length start)

/-- Python's `int.from_bytes(data, "big")` (unsigned big-endian). -/
def beVal (data : List Nat) : Nat :=
  data.foldl (fun acc b => acc * 256 + b) 0

/-- Little-endian companion of `beVal`: `beVal data.reverse`. -/
def leVal (data : List Nat) : Nat :=
  data.foldr (fun b acc => acc * 256 + b) 0

/-- Python's `int.from_bytes(data, "big", signed=s)`: two's-complement when
the leading octet has its high bit set. -/
def intFromBytes (data : List Nat) (signed : Bool) : Int :=
  if signed ∧ 128 ≤ data.headD 0 then (beVal data : Int) - 256 ^ data.length
  else (beVal data : Int)

/-- TypeClass enum of util.py (universal/application/context/private). -/
inductive TypeClass where
  | universal | application | context | private_
deriving DecidableEq

/-- TypeNature enum of util.py (primitive/constructed). -/
inductive TypeNature where
  | primitive | constructed
deriving DecidableEq

/-- Decoded structure for an X.690 type octet (util.py `TypeInfo`). -/
structure TypeInfo where
  cls : TypeClass
  nature : TypeNature
  tag : Nat
deriving DecidableEq

/-- util.py `TypeInfo.from_bytes`: raises `NotImplementedError` only when the
whole octet equals 0b11111111, otherwise splits the octet into class bits
(7-6), primitive/constructed bit (5) and tag bits (4-0). -/
def TypeInfo.from_bytes (data : Nat) : Except DecodeErr TypeInfo :=
  if data = 255 then .error .notImplemented
  else
    let cls_hint := (data &&& 192) >>> 6
    let pc_hint := (data &&& 32) >>> 5
    let value := data &&& 31
    let cls :=
      if cls_hint = 0 then TypeClass.universal
      else if cls_hint = 1 then TypeClass.application
      else if cls_hint = 2 then TypeClass.context
      else TypeClass.private_
    let nature := if pc_hint ≠ 0 then TypeNature.constructed else TypeNature.primitive
    .ok ⟨cls, nature, value⟩

/-- Class bits of util.py `TypeInfo.__bytes__`. -/
def clsBits : TypeClass → Nat
  | .universal => 0
  | .application => 1
  | .context => 2
  | .private_ => 3

/-- Nature bit of util.py `TypeInfo.__bytes__`. -/
def natureBits : TypeNature → Nat
  | .constructed => 1
  | .primitive => 0

/-- util.py `TypeInfo.__bytes__` (the `ValueError` branches guard against
malformed enum members, which the Lean types exclude). -/
def TypeInfo.toByte (t : TypeInfo) : Nat :=
  (clsBits t.cls <<< 6) ||| (natureBits t.nature <<< 5) ||| t.tag

/-- Argument of util.py `encode_length`: an `int` or `Length.INDEFINITE`. -/
inductive PyLength where
  | definite (n : Nat) : PyLength
  | indefinite : PyLength
deriving DecidableEq

/-- Big-endian base-256 digits of `n`, as built by the `while value > 0`
loop of util.py `encode_length` (insert-at-front). -/
def natToBE (n : Nat) : List Nat :=
  if n = 0 then [] else natToBE (n / 256) ++ [n % 256]
termination_by n
decreasing_by exact Nat.div_lt_self (Nat.pos_of_ne_zero (by assumption)) (by norm_num)

/-- util.py `encode_length`: 0x80 for the indefinite form, a single octet
for values below 127, otherwise a count-of-octets octet (high bit set)
followed by the big-endian magnitude octets. -/
def encode_length : PyLength → List Nat
  | .indefinite => [128]
  | .definite value =>
    if value < 127 then [value]
    else (128 ||| (natToBE value).length) :: natToBE value

/-- util.py `decode_length`: returns `(length, offset)` with the pair
`(-1, -1)` as the indefinite-form sentinel.  Reading past the end of the
buffer is Python's `IndexError`. -/
def decode_length (data : List Nat) (index : Nat) : Except DecodeErr (Int × Int) :=
  if data.length ≤ index then .error .indexError
  else
    let data0 := data.getD index 0
    if data0 = 255 then .error .notImplemented
    else if data0 &&& 128 = 0 then .ok ((data0 : Int), 1)
    else if data0 ^^^ 128 = 0 then .ok (-1, -1)
    else
      let num_octets := data0 ^^^ 128
      let value_octets := pySlice data ((index : Int) + 1) ((index : Int) + num_octets + 1)
      .ok ((beVal value_octets : Int), (num_octets : Int) + 1)

/-- Whether the two-byte end-of-contents marker 0x00 0x00 sits at `i`. -/
def pairAt (data : List Nat) (i : Nat) : Bool :=
  data.get? i == some 0 && data.get? (i + 1) == some 0

/-- Python's `data.find(b"\x00\x00", start)`: index of the first EOC marker
at or after `start`, or -1 when there is none. -/
def findPair (data : List Nat) (start : Nat) : Int :=
  match (List.range data.length).find? (fun i => decide (start ≤ i) && pairAt data i) with
  | some i => (i : Int)
  | none => -1

/-- util.py `get_value_slice`: value bounds `(start, stop)` plus the index
of the next TLV.  For the indefinite form the stop bound is the result of
the EOC search (which is -1 when the marker is missing, a value the
`end > len(data)` guard does not catch). -/
def get_value_slice (data : List Nat) (index : Nat) : Except DecodeErr ((Int × Int) × Int) :=
  match decode_length data (index + 1) with
  | .error e => .error e
  | .ok (length, offset) =>
    if length = -1 then
      let start : Int := (index : Int) + 2
      let stop : Int := findPair data index
      let nex_index : Int := stop + 2
      if stop > (data.length : Int) then .error .x690Error
      else .ok ((start, stop), nex_index)
    else
      let start : Int := (index : Int) + 1 + offset
      let stop : Int := (index : Int) + 1 + offset + length
      if stop > (data.length : Int) then .error .x690Error
      else .ok ((start, stop), stop)

/-- The classes registered in the `X690Type` registry of types.py, plus
`UnknownType` which doubles as the fallback. -/
inductive RegClass where
  | unknownType | boolean | null_ | octetString | sequence | integer
  | objectIdentifier | objectDescriptor | external_ | real | enumerated
  | embeddedPdv | utf8String | relativeOid | set_ | numericString
  | printableString | t61String | videotexString | ia5String | utcTime
  | generalizedTime | graphicString | visibleString | generalString
  | universalString | characterString | bmpString | eoc | bitString
deriving DecidableEq

/-- The registry built by `X690Type.__init_subclass__`: each class is keyed
by `(TYPECLASS, TAG, nature)` for every nature in its `NATURE` list.  All
registered classes are universal; the keys never collide. -/
def registryGet (cls : TypeClass) (tag : Nat) (nature : TypeNature) : Option RegClass :=
  match cls, tag, nature with
  | .universal, 153, .constructed => some .unknownType
  | .universal, 1, .primitive => some .boolean
  | .universal, 5, .primitive => some .null_
  | .universal, 4, .primitive => some .octetString
  | .universal, 4, .constructed => some .octetString
  | .universal, 16, .constructed => some .sequence
  | .universal, 2, .primitive => some .integer
  | .universal, 6, .primitive => some .objectIdentifier
  | .universal, 7, .primitive => some .objectDescriptor
  | .universal, 7, .constructed => some .objectDescriptor
  | .universal, 8, .constructed => some .external_
  | .universal, 9, .primitive => some .real
  | .universal, 10, .primitive => some .enumerated
  | .universal, 11, .constructed => some .embeddedPdv
  | .universal, 12, .primitive => some .utf8String
  | .universal, 12, .constructed => some .utf8String
  | .universal, 13, .primitive => some .relativeOid
  | .universal, 17, .constructed => some .set_
  | .universal, 18, .primitive => some .numericString
  | .universal, 18, .constructed => some .numericString
  | .universal, 19, .primitive => some .printableString
  | .universal, 19, .constructed => some .printableString
  | .universal, 20, .primitive => some .t61String
  | .universal, 20, .constructed => some .t61String
  | .universal, 21, .primitive => some .videotexString
  | .universal, 21, .constructed => some .videotexString
  | .universal, 22, .primitive => some .ia5String
  | .universal, 22, .constructed => some .ia5String
  | .universal, 23, .primitive => some .utcTime
  | .universal, 23, .constructed => some .utcTime
  | .universal, 24, .primitive => some .generalizedTime
  | .universal, 24, .constructed => some .generalizedTime
  | .universal, 25, .primitive => some .graphicString
  | .universal, 25, .constructed => some .graphicString
  | .universal, 26, .primitive => some .visibleString
  | .universal, 26, .constructed => some .visibleString
  | .universal, 27, .primitive => some .generalString
  | .universal, 27, .constructed => some .generalString
  | .universal, 28, .primitive => some .universalString
  | .universal, 28, .constructed => some .universalString
  | .universal, 29, .constructed => some .characterString
  | .universal, 30, .primitive => some .bmpString
  | .universal, 30, .constructed => some .bmpString
  | .universal, 0, .primitive => some .eoc
  | .universal, 3, .primitive => some .bitString
  | .universal, 3, .constructed => some .bitString
  | _, _, _ => none

/-- A decoded, still-lazy value: the class resolved from the registry, the
backing buffer, the content bounds set by `X690Type.from_bytes`, and the
`tag` attribute that `decode` assigns on `UnknownType` instances (-1
otherwise, matching `UnknownType.__init__`). -/
structure DecodedValue where
  klass : RegClass
  data : List Nat
  start : Int
  stop : Int
  tag : Int
deriving DecidableEq

/-- types.py `decode`: reads one TLV at `start_index`, resolving the class
through the registry with `UnknownType` as fallback, optionally enforcing a
class and optionally checking (strict mode) that the next-TLV index reached
`len(data) - 1`. -/
def decode (data : List Nat) (start_index : Nat) (enforce_type : Option RegClass)
    (strict : Bool) : Except DecodeErr (DecodedValue × Int) :=
  if data.length ≤ start_index then .error .indexError
  else
    match TypeInfo.from_bytes (data.getD start_index 0) with
    | .error e => .error e
    | .ok type_ =>
      let cls := (registryGet type_.cls type_.tag type_.nature).getD RegClass.unknownType
      match get_value_slice data start_index with
      | .error e => .error e
      | .ok (data_slice, next_tlv) =>
        let output : DecodedValue :=
          ⟨cls, data, data_slice.1, data_slice.2,
            if cls = RegClass.unknownType then (data.getD start_index 0 : Int) else -1⟩
        if (match enforce_type with | some ec => cls != ec | none => false : Bool) then
          .error .unexpectedType
        else if strict ∧ next_tlv < (data.length : Int) - 1 then
          .error (.incompleteDecoding (pySliceFrom data next_tlv))
        else .ok (output, next_tlv)

/-- The raw content octets of a decoded value: `raw_bytes[bounds]`. -/
def contentBytes (v : DecodedValue) : List Nat :=
  pySlice v.data v.start v.stop

/-- types.py `X690Type.length`: `len(raw_bytes[bounds])`. -/
def x690Length (v : DecodedValue) : Nat :=
  (contentBytes v).length

/-- types.py `Boolean.decode_raw`: `data[slc] != b"\x00"`. -/
def booleanValue (v : DecodedValue) : Bool :=
  contentBytes v ≠ [0]

/-- The `(List Nat × Int)` pair returned by the `while remainder not in
(0, -1)` loop of types.py `Integer.encode_raw`: the octets appended by the
loop (least-significant first) and the final remainder (0 or -1). -/
def intLoop (r : Int) : List Nat × Int :=
  if r = 0 ∨ r = -1 then ([], r)
  else
    let r2 := r / 256
    let p := intLoop r2
    (((r2 % 256).toNat) :: p.1, p.2)
termination_by r.natAbs
decreasing_by omega

/-- The `while len(octets) > 1 and ...` strip loop of types.py
`Integer.encode_raw`: removes a leading 0x00 whose successor has a clear
high bit, or a leading 0xFF whose successor has a set high bit. -/
def stripLoop : List Nat → List Nat
  | a :: b :: rest =>
    if (a = 0 ∧ b &&& 128 = 0) ∨ (a = 255 ∧ b &&& 128 ≠ 0) then stripLoop (b :: rest)
    else a :: b :: rest
  | l => l

/-- types.py `Integer.encode_raw` for an initialised `pyvalue`: collect
`pyvalue & 0xff` plus the loop octets, append a zero octet in the special
`remainder == 0 and octets[-1] == 0x80` case, reverse, then strip redundant
leading octets. -/
def integerEncode (pyvalue : Int) : List Nat :=
  let p := intLoop pyvalue
  let octets : List Nat := ((pyvalue % 256).toNat) :: p.1
  let octets := if p.2 = 0 ∧ octets.getLast? = some 128 then octets ++ [0] else octets
  stripLoop octets.reverse

/-- types.py `Integer.decode_raw` on the content octets (`SIGNED = True`). -/
def integerValue (v : DecodedValue) : Int :=
  intFromBytes (contentBytes v) true

/-- types.py `OctetString.decode_raw` is the default `decode_raw`:
the raw content octets themselves. -/
def octetStringValue (v : DecodedValue) : List Nat :=
  contentBytes v

/-- Native Python value attached to a constructed (not decoded) instance.
`uninit` is the `UNINITIALISED` sentinel. -/
inductive PyVal where
  | pyBytes (bs : List Nat) : PyVal
  | pyStr (s : String) : PyVal
  | pyInt (n : Int) : PyVal
  | pyBool (b : Bool) : PyVal
  | pyNone : PyVal
  | uninit : PyVal
deriving DecidableEq

/-- A freshly constructed `X690Type` instance (no backing buffer, default
bounds `slice(None)`). -/
structure PyInstance where
  klass : RegClass
  pyvalue : PyVal
deriving DecidableEq

/-- Python truthiness of the modelled values (the `UNINITIALISED` sentinel
object is truthy). -/
def truthy : PyVal → Bool
  | .pyBytes bs => bs ≠ []
  | .pyStr s => s ≠ ""
  | .pyInt n => n ≠ 0
  | .pyBool b => b
  | .pyNone => false
  | .uninit => true

/-- types.py `TYPECLASS`: every class in this module keeps the default
`TypeClass.UNIVERSAL`. -/
def TYPECLASS : RegClass → TypeClass := fun _ => .universal

/-- types.py `TAG` per class. -/
def TAG : RegClass → Nat
  | .unknownType => 153
  | .boolean => 1
  | .null_ => 5
  | .octetString => 4
  | .sequence => 16
  | .integer => 2
  | .objectIdentifier => 6
  | .objectDescriptor => 7
  | .external_ => 8
  | .real => 9
  | .enumerated => 10
  | .embeddedPdv => 11
  | .utf8String => 12
  | .relativeOid => 13
  | .set_ => 17
  | .numericString => 18
  | .printableString => 19
  | .t61String => 20
  | .videotexString => 21
  | .ia5String => 22
  | .utcTime => 23
  | .generalizedTime => 24
  | .graphicString => 25
  | .visibleString => 26
  | .generalString => 27
  | .universalString => 28
  | .characterString => 29
  | .bmpString => 30
  | .eoc => 0
  | .bitString => 3

/-- First element of each class's `NATURE` list (used by `__bytes__`). -/
def natureHead : RegClass → TypeNature
  | .unknownType => .constructed
  | .sequence => .constructed
  | .external_ => .constructed
  | .embeddedPdv => .constructed
  | .set_ => .constructed
  | .characterString => .constructed
  | _ => .primitive

/-- Per-class `encode_raw` on a constructed instance, as `Option` (a `none`
is a Python exception).  The default `X690Type.encode_raw` returns `b""`
for the sentinel and otherwise `self.pyvalue` unchanged, whatever its type.
`Sequence` child encoding, `ObjectIdentifier` string-node parsing and the
external `T61String` codec are outside every claim and are not modelled
beyond their sentinel cases. -/
def encodeRaw (inst : PyInstance) : Option PyVal :=
  match inst.klass with
  | .boolean => some (.pyBytes (if truthy inst.pyvalue then [1] else [0]))
  | .null_ => some (.pyBytes [0])
  | .integer =>
    match inst.pyvalue with
    | .uninit => some (.pyBytes [])
    | .pyInt n => some (.pyBytes (integerEncode n))
    | _ => none
  | .sequence =>
    match inst.pyvalue with
    | .uninit => some (.pyBytes [])
    | _ => none
  | .objectIdentifier =>
    match inst.pyvalue with
    | .uninit => some (.pyBytes [])
    | _ => none
  | .t61String =>
    match inst.pyvalue with
    | .uninit => some (.pyBytes [])
    | _ => none
  | _ =>
    match inst.pyvalue with
    | .uninit => some (.pyBytes [])
    | v => some v

/-- types.py `X690Type.raw_bytes` getter on a fresh instance: `b""` for the
sentinel, otherwise the `encode_raw` result. -/
def rawBytesOf (inst : PyInstance) : Option PyVal :=
  match inst.pyvalue with
  | .uninit => some (.pyBytes [])
  | _ => encodeRaw inst

/-- types.py `X690Type.__bytes__` (with `Null.__bytes__` overridden to
`b"\x05\x00"`): `raw_bytes[bounds] or encode_raw()`, then the TypeInfo
octet, the encoded length and the content.  Concatenating a non-bytes
value (e.g. a `str` from the default `encode_raw`) is Python's
`TypeError`, modelled as `none`. -/
def bytesOf (inst : PyInstance) : Option (List Nat) :=
  if inst.klass = RegClass.null_ then some [5, 0]
  else
    match rawBytesOf inst with
    | none => none
    | some raw =>
      match (if truthy raw then some raw else encodeRaw inst) with
      | some (.pyBytes content) =>
        some (TypeInfo.toByte ⟨TYPECLASS inst.klass, natureHead inst.klass, TAG inst.klass⟩ ::
          (encode_length (.definite content.length) ++ content))
      | _ => none

/-- `Boolean(b)`. -/
def mkBoolean (b : Bool) : PyInstance := ⟨.boolean, .pyBool b⟩

/-- `Null(None)` (the native value of the Null variant). -/
def mkNull : PyInstance := ⟨.null_, .pyNone⟩

/-- `OctetString(v)`: the custom `__init__` stores the sentinel for a falsy
(empty) value. -/
def mkOctetString (v : List Nat) : PyInstance :=
  ⟨.octetString, if v = [] then .uninit else .pyBytes v⟩

/-- `Integer(n)`. -/
def mkInteger (n : Int) : PyInstance := ⟨.integer, .pyInt n⟩

/-- `Utf8String(s)` (no custom `__init__`; the str is stored as-is). -/
def mkUtf8String (s : String) : PyInstance := ⟨.utf8String, .pyStr s⟩

/-- The grouping loop of types.py `ObjectIdentifier.encode_large_value`:
7-bit groups, least-significant first, each with the high bit set. -/
def elvLoop (v : Nat) : List Nat :=
  if v = 0 then [] else ((v &&& 127) ||| 128) :: elvLoop (v >>> 7)
termination_by v
decreasing_by
  rw [Nat.shiftRight_eq_div_pow]
  exact Nat.div_lt_self (Nat.pos_of_ne_zero (by assumption)) (by norm_num)

/-- types.py `ObjectIdentifier.encode_large_value`: values up to 127 are a
single octet; larger values are split into 7-bit groups (built
least-significant first, then reversed) with the high bit set on every
group except the final one. -/
def encode_large_value (value : Nat) : List Nat :=
  if value ≤ 127 then [value]
  else ((value &&& 127) :: elvLoop (value >>> 7)).reverse

/-- The `while current_char > 127` loop of types.py
`ObjectIdentifier.decode_large_value`: collects `current_char ^ 0x80` into
the buffer, pulling the next octet from the stream; `none` models
`StopIteration` on an exhausted stream. -/
def decodeLargeLoop : Nat → List Nat → List Nat → Option (List Nat × Nat)
  | c, [], buf => if 127 < c then none else some (buf, c)
  | c, x :: xs, buf => if 127 < c then decodeLargeLoop x xs (buf ++ [c ^^^ 128]) else some (buf, c)

/-- The recombination loop of `decode_large_value`: for each digit of the
reversed buffer at position `i`, add `digit * 128 ^ (i + 1)`. -/
def dlvGo : List Nat → Nat → Nat
  | [], _ => 0
  | d :: ds, i => d * 128 ^ i + dlvGo ds (i + 1)

/-- Little-endian base-128 value of a digit list (proof-side companion of
`dlvGo`). -/
def leVal128 (l : List Nat) : Nat :=
  l.foldr (fun b acc => acc * 128 + b) 0

/-- types.py `ObjectIdentifier.decode_large_value` over an explicit stream:
the collected high-bit groups recombined base-128 with the terminating
low octet. -/
def decode_large_value (current_char : Nat) (stream : List Nat) : Option Nat :=
  match decodeLargeLoop current_char stream [] with
  | none => none
  | some (buffer, total) => some (total + dlvGo buffer.reverse 1)

/-- `itertools.zip_longest(a, b, fillvalue=None)`. -/
def zipLongest : List Nat → List Nat → List (Option Nat × Option Nat)
  | [], ys => ys.map (fun y => (none, some y))
  | x :: xs, [] => (some x, none) :: zipLongest xs []
  | x :: xs, y :: ys => (some x, some y) :: zipLongest xs ys

/-- types.py `ObjectIdentifier.__contains__` on node sequences (`a` is the
`in` operator's left operand `other`, `b` is `self`): equal lengths compare
for equality, a longer `b` is never contained, and otherwise the zipped
pairs are dropped from the front while equal and the remainder's `b`-sides
must all be `None`.  The `zip(*tail)` unpacking of an empty tail (a Python
`ValueError`) is modelled as `none`. -/
def oidContains (selfNodes otherNodes : List Nat) : Option Bool :=
  let a := otherNodes
  let b := selfNodes
  if a.length = b.length then some (a == b)
  else if a.length < b.length then some false
  else
    let tail := (zipLongest a b).dropWhile (fun p => p.1 == p.2)
    if tail = [] then none
    else some (tail.all (fun p => p.2 == none))

/-- Specification-side characterisation for C8: `ys` is a leading segment
of `xs`. -/
def isLeadingOf : List Nat → List Nat → Bool
  | [], _ => true
  | _ :: _, [] => false
  | y :: ys, x :: xs => y == x && isLeadingOf ys xs

/-- The pair (first two octets) that a minimal two's-complement encoding
must not start with: a redundant 0x00 before a clear high bit, or a
redundant 0xFF before a set high bit. -/
def redundantLead : List Nat → Bool
  | a :: b :: _ => (a = 0 ∧ b < 128) ∨ (a = 255 ∧ 128 ≤ b)
  | _ => false

lemma land128_of_lt (b : Nat) (h : b < 128) : b &&& 128 = 0 := by
  revert b h; decide

lemma add128_land (k : Nat) (h : k < 128) : (128 + k) &&& 128 = 128 := by
  revert k h; decide

lemma add128_xor (k : Nat) (h : k < 128) : (128 + k) ^^^ 128 = k := by
  revert k h; decide

lemma lor128_eq_add (k : Nat) (h : k < 128) : 128 ||| k = 128 + k := by
  revert k h; decide

lemma beVal_append_singleton (xs : List Nat) (d : Nat) :
    beVal (xs ++ [d]) = beVal xs * 256 + d := by
  simp [beVal, List.foldl_append]

lemma beVal_natToBE (n : Nat) : beVal (natToBE n) = n := by
  induction n using Nat.strong_induction_on with
  | _ n ih =>
    rw [natToBE]
    by_cases h : n = 0
    · simp [h, beVal]
    · rw [if_neg h, beVal_append_singleton,
        ih (n / 256) (Nat.div_lt_self (Nat.pos_of_ne_zero h) (by norm_num))]
      omega

lemma natToBE_len_le (k : Nat) : ∀ n, n < 256 ^ k → (natToBE n).length ≤ k := by
  induction k with
  | zero =>
    intro n hn
    interval_cases n
    simp [natToBE]
  | succ k ih =>
    intro n hn
    rw [natToBE]
    by_cases h : n = 0
    · simp [h]
    · rw [if_neg h]
      have hd : n / 256 < 256 ^ k := by
        rw [Nat.div_lt_iff_lt_mul (by norm_num)]
        calc n < 256 ^ (k + 1) := hn
        _ = 256 ^ k * 256 := by ring
      have := ih (n / 256) hd
      simp only [List.length_append, List.length_cons, List.length_nil]
      omega

lemma natToBE_ne_nil (n : Nat) (h : 0 < n) : natToBE n ≠ [] := by
  rw [natToBE, if_neg (by omega)]
  simp

lemma pyIdx_ofNat (len : Nat) (i : Nat) : pyIdx len (i : Int) = min i len := by
  simp [pyIdx]

lemma pySlice_exact (pre mid post : List Nat) :
    pySlice (pre ++ mid ++ post) (pre.length : Int) ((pre.length : Int) + (mid.length : Int)) =
      mid := by
  have h1 : ((pre.length : Int) + (mid.length : Int)) = (((pre ++ mid).length : Nat) : Int) := by
    simp [List.length_append]
  rw [pySlice, h1, pyIdx_ofNat, pyIdx_ofNat]
  have hle1 : (pre ++ mid).length ≤ (pre ++ mid ++ post).length := by
    simp [List.length_append]
  have hle2 : pre.length ≤ (pre ++ mid ++ post).length := by
    simp [List.length_append]
  rw [Nat.min_eq_left hle1, Nat.min_eq_left hle2]
  rw [List.take_left' rfl, List.drop_left' rfl]

lemma pyIdx_succ (len : Nat) (b : Int) (hb : 0 ≤ b) :
    pyIdx (len + 1) (b + 1) = pyIdx len b + 1 := by
  simp only [pyIdx]
  rw [if_neg (by omega), if_neg (by omega)]
  omega

lemma pySlice_cons_shift (x : Nat) (xs : List Nat) (a b : Int) (ha : 0 ≤ a) (hb : 0 ≤ b) :
    pySlice (x :: xs) (a + 1) (b + 1) = pySlice xs a b := by
  rw [pySlice, pySlice]
  simp only [List.length_cons]
  rw [pyIdx_succ _ _ hb, pyIdx_succ _ _ ha, List.take_succ_cons, List.drop_succ_cons]

lemma decode_length_one (x : Nat) (xs : List Nat) :
    decode_length (x :: xs) 1 = decode_length xs 0 := by
  cases xs with
  | nil => rfl
  | cons y ys =>
    rw [decode_length, decode_length]
    rw [if_neg (show ¬((x :: y :: ys).length ≤ 1) from by
        simp only [List.length_cons]; omega),
      if_neg (show ¬((y :: ys).length ≤ 0) from by
        simp only [List.length_cons]; omega)]
    have hg1 : (x :: y :: ys).getD 1 0 = y := rfl
    have hg0 : (y :: ys).getD 0 0 = y := rfl
    rw [hg1, hg0]
    by_cases h255 : y = 255
    · simp [h255]
    · by_cases hA : y &&& 128 = 0
      · simp [h255, hA]
      · by_cases hB : y ^^^ 128 = 0
        · simp [h255, hA, hB]
        · simp only [if_neg h255, if_neg hA, if_neg hB]
          simp only [Nat.cast_one, Nat.cast_zero]
          rw [show (1 : Int) + ((y ^^^ 128 : Nat) : Int) + 1 =
              (((y ^^^ 128 : Nat) : Int) + 1) + 1 from by ring]
          rw [pySlice_cons_shift x (y :: ys) 1 (((y ^^^ 128 : Nat) : Int) + 1) (by norm_num)
            (by positivity)]
          norm_num

lemma decode_length_encode_front (L : Nat) (rest : List Nat) (hL : L < 256 ^ 126) :
    decode_length (encode_length (.definite L) ++ rest) 0 =
      .ok ((L : Int), ((encode_length (.definite L)).length : Int)) := by
  by_cases hS : L < 127
  · simp only [encode_length, if_pos hS, List.singleton_append, List.length_singleton]
    rw [decode_length]
    rw [if_neg (by simp only [List.length_cons]; omega)]
    simp only [List.getD_cons_zero]
    rw [if_neg (by omega), if_pos (land128_of_lt L (by omega))]
    norm_num
  · have hpos : 0 < L := by omega
    have hne := natToBE_ne_nil L hpos
    have hk : (natToBE L).length ≤ 126 := natToBE_len_le 126 L hL
    have hk1 : 1 ≤ (natToBE L).length := by
      cases h : natToBE L with
      | nil => exact absurd h hne
      | cons a as => simp [h]
    set k := (natToBE L).length with hkdef
    simp only [encode_length, if_neg hS, List.cons_append, List.length_cons]
    rw [decode_length]
    rw [if_neg (by simp only [List.length_cons]; omega)]
    simp only [List.getD_cons_zero]
    rw [lor128_eq_add k (by omega)]
    rw [if_neg (by omega)]
    rw [if_neg (by rw [add128_land k (by omega)]; omega)]
    rw [add128_xor k (by omega)]
    rw [if_neg (by omega)]
    have hslice : pySlice ((128 + k) :: (natToBE L ++ rest)) (((0 : Nat) : Int) + 1)
        (((0 : Nat) : Int) + (k : Int) + 1) = natToBE L := by
      have := pySlice_exact [128 + k] (natToBE L) rest
      simp only [List.length_singleton, List.singleton_append, Nat.cast_one] at this
      rw [show ((0 : Nat) : Int) + 1 = (1 : Int) from by norm_num,
        show ((0 : Nat) : Int) + (k : Int) + 1 = (1 : Int) + (k : Int) from by ring]
      exact this
    rw [hslice, beVal_natToBE]
    have hcast : ((k : Int) + 1) = (((natToBE L).length + 1 : Nat) : Int) := by
      rw [hkdef]; push_cast; ring
    rw [hcast]

lemma pySlice_drop_all (pre mid : List Nat) :
    pySlice (pre ++ mid) (pre.length : Int) ((pre.length : Int) + (mid.length : Int)) = mid := by
  have := pySlice_exact pre mid []
  simpa using this

lemma get_value_slice_framed (hd : Nat) (content : List Nat)
    (hL : content.length < 256 ^ 126) :
    get_value_slice (hd :: encode_length (.definite content.length) ++ content) 0 =
      .ok ((1 + ((encode_length (.definite content.length)).length : Int),
            1 + ((encode_length (.definite content.length)).length : Int) + content.length),
           1 + ((encode_length (.definite content.length)).length : Int) + content.length) := by
  have h1 : decode_length (hd :: encode_length (.definite content.length) ++ content) (0 + 1) =
      .ok ((content.length : Int), ((encode_length (.definite content.length)).length : Int)) :=
    (decode_length_one hd (encode_length (.definite content.length) ++ content)).trans
      (decode_length_encode_front _ _ hL)
  rw [get_value_slice, h1]
  simp only []
  rw [if_neg (show ¬((content.length : Int) = -1) from by omega)]
  have hlen : ((hd :: encode_length (.definite content.length) ++ content).length : Int) =
      1 + ((encode_length (.definite content.length)).length : Int) + content.length := by
    simp only [List.length_cons, List.length_append]
    push_cast
    ring
  rw [if_neg (show ¬((0 : Nat) + 1 +
      ((encode_length (.definite content.length)).length : Int) + content.length >
      ((hd :: encode_length (.definite content.length) ++ content).length : Int)) from by
    rw [hlen]; push_cast; omega)]
  norm_num

/-- C10: when the length octet announces the indefinite form (0x80) but the
buffer holds no 0x00 0x00 marker at or after the TLV start, `get_value_slice`
raises nothing: the EOC search returns -1, giving a content range whose end
bound is -1 and a next-TLV index of 1, and the `end > len(data)` guard never
fires on the -1. -/
theorem value_slice_missing_eoc (data : List Nat) (index : Nat)
    (hlen : index + 1 < data.length)
    (h80 : data.getD (index + 1) 0 = 128)
    (hfind : findPair data index = -1) :
    get_value_slice data index = .ok (((index : Int) + 2, -1), 1) := by
  rw [get_value_slice, decode_length]
  rw [if_neg (show ¬(data.length ≤ index + 1) from by omega), h80]
  norm_num
  rw [hfind]
  rw [if_neg (show ¬((-1 : Int) > (data.length : Int)) from by omega)]
  norm_num

/-- Witness for C10 at the concrete buffer 0x04 0x80 0x41 (an indefinite
OctetString header with no EOC marker anywhere). -/
theorem value_slice_missing_eoc_witness :
    get_value_slice [4, 128, 65] 0 = .ok (((0 : Int) + 2, -1), 1) :=
  value_slice_missing_eoc [4, 128, 65] 0 (by norm_num) (by decide) (by decide)

/-- C3 (counterexample): the identifier octet 0x1F has all of bits 4-0 set,
yet `TypeInfo.from_bytes` does not fail: it returns tag 31.  The code only
rejects the full octet 0xFF. -/
theorem typeinfo_long_tag_octet_31_decodes :
    31 &&& 31 = 31 ∧
    TypeInfo.from_bytes 31 = .ok ⟨TypeClass.universal, TypeNature.primitive, 31⟩ := by
  decide

/-- C3 (amended): `TypeInfo.from_bytes` fails (with the
unsupported-long-tag-form error, `NotImplementedError`) exactly for the
octet 0xFF; every other octet, including the others whose five low bits are
all set (0x1F, 0x3F, 0x5F, 0x7F, 0x9F, 0xBF, 0xDF), decodes successfully. -/
theorem typeinfo_from_bytes_fails_iff_255 (b : Nat) (hb : b < 256) :
    (TypeInfo.from_bytes b).isOk = (b != 255) ∧
    (b = 255 → TypeInfo.from_bytes b = .error .notImplemented) := by
  revert hb
  revert b
  decide

/-- Witness for the amended C3 at octet 0x1F. -/
theorem typeinfo_from_bytes_fails_iff_255_witness :
    (TypeInfo.from_bytes 31).isOk = (31 != 255) ∧
    (31 = 255 → TypeInfo.from_bytes 31 = .error .notImplemented) :=
  typeinfo_from_bytes_fails_iff_255 31 (by norm_num)

/-- C2 (code bug): decoding the buffer 0x05 0x00 0xFF (a complete Null TLV
followed by one junk byte) with `strict=True` does NOT raise
`IncompleteDecoding`: the guard compares `next_tlv < len(data) - 1`, so the
single unconsumed trailing byte (`data[2:] = b"\xff"`) goes unreported and
the call returns `(Null(), 2)`. -/
theorem decode_strict_one_trailing_byte_not_raised :
    decode [5, 0, 255] 0 none true =
      .ok (⟨RegClass.null_, [5, 0, 255], 2, 2, -1⟩, 2) ∧
    pySliceFrom [5, 0, 255] 2 = [255] := by
  decide

/-- C5: length-codec symmetry.  For every definite length up to 100000,
`decode_length` run on `encode_length`'s octets returns the same length
together with the octet count consumed; the single-octet short form is used
exactly for lengths below 127 (so 127 itself uses the long form, concretely
0x81 0x7F); the indefinite sentinel encodes to the single octet 0x80 and
decodes to the (-1, -1) sentinel pair. -/
theorem length_roundtrip (L : Nat) (hL : L ≤ 100000) :
    decode_length (encode_length (.definite L)) 0 =
      .ok ((L : Int), ((encode_length (.definite L)).length : Int)) ∧
    ((encode_length (.definite L)).length = 1 ↔ L < 127) ∧
    encode_length .indefinite = [128] ∧
    decode_length (encode_length .indefinite) 0 = .ok (-1, -1) ∧
    encode_length (.definite 127) = [129, 127] := by
  refine ⟨?_, ?_, rfl, by decide, ?_⟩
  · have hb : L < 256 ^ 126 := lt_of_le_of_lt hL (by norm_num)
    have := decode_length_encode_front L [] hb
    simpa using this
  · constructor
    · intro h1
      by_contra hge
      have hpos : 0 < L := by omega
      simp only [encode_length, if_neg hge, List.length_cons] at h1
      exact natToBE_ne_nil L hpos (by
        cases hnb : natToBE L with
        | nil => rfl
        | cons a as => rw [hnb] at h1; simp at h1)
    · intro h
      simp [encode_length, h]
  · have h127 : natToBE 127 = [127] := by
      rw [natToBE]
      norm_num
      rw [natToBE]
      norm_num
    simp [encode_length, h127]

/-- Witness for C5 at the long-form length 200 (0x81 0xC8). -/
theorem length_roundtrip_witness :
    decode_length (encode_length (.definite 200)) 0 =
      .ok ((200 : Int), ((encode_length (.definite 200)).length : Int)) ∧
    ((encode_length (.definite 200)).length = 1 ↔ 200 < 127) ∧
    encode_length .indefinite = [128] ∧
    decode_length (encode_length .indefinite) 0 = .ok (-1, -1) ∧
    encode_length (.definite 127) = [129, 127] :=
  length_roundtrip 200 (by norm_num)

/-- C4: a well-framed TLV whose (class, tag, nature) triple misses the
registry decodes without error to an UnknownType value that keeps the raw
identifier octet in `tag` and the uninterpreted content octets; concretely,
0xFE 0x01 0x00 yields tag 254, content length 1 and content 0x00. -/
theorem decode_unknown_fallback :
    (∀ (data : List Nat) (start : Nat) (t : TypeInfo) (slc : Int × Int) (nxt : Int),
      start < data.length →
      TypeInfo.from_bytes (data.getD start 0) = .ok t →
      registryGet t.cls t.tag t.nature = none →
      get_value_slice data start = .ok (slc, nxt) →
      decode data start none false =
        .ok (⟨RegClass.unknownType, data, slc.1, slc.2, (data.getD start 0 : Int)⟩, nxt)) ∧
    decode [254, 1, 0] 0 none false =
      .ok (⟨RegClass.unknownType, [254, 1, 0], 2, 3, 254⟩, 3) ∧
    x690Length ⟨RegClass.unknownType, [254, 1, 0], 2, 3, 254⟩ = 1 ∧
    contentBytes ⟨RegClass.unknownType, [254, 1, 0], 2, 3, 254⟩ = [0] := by
  refine ⟨?_, by decide, by decide, by decide⟩
  intro data start t slc nxt hs ht hr hg
  rw [decode]
  rw [if_neg (by omega), ht]
  simp only [hr, Option.getD_none]
  rw [hg]
  simp

/-- Witness for the general part of C4 at the buffer 0xFE 0x01 0x00
(private class, constructed, tag 30: not registered). -/
theorem decode_unknown_fallback_witness :
    decode [254, 1, 0] 0 none false =
      .ok (⟨RegClass.unknownType, [254, 1, 0], 2, 3,
        (([254, 1, 0].getD 0 0 : Nat) : Int)⟩, 3) :=
  decode_unknown_fallback.1 [254, 1, 0] 0
    ⟨TypeClass.private_, TypeNature.constructed, 30⟩ (2, 3) 3
    (by norm_num) (by decide) (by decide) (by decide)

/-- C9: decoding the definite OctetString 0x04 0x0B "hello-world" and the
indefinite form 0x04 0x80 "hello-world" 0x00 0x00 yields equal values (both
with content "hello-world"); in general, when the length octet is 0x80 and
the EOC search (which starts at the TLV's identifier octet) finds the
marker at `e`, the scanner returns the content range `[index+2, e)` with
next-TLV index `e + 2`. -/
theorem indefinite_equals_definite :
    decode [4, 11, 104, 101, 108, 108, 111, 45, 119, 111, 114, 108, 100] 0 none false =
      .ok (⟨RegClass.octetString,
        [4, 11, 104, 101, 108, 108, 111, 45, 119, 111, 114, 108, 100], 2, 13, -1⟩, 13) ∧
    decode [4, 128, 104, 101, 108, 108, 111, 45, 119, 111, 114, 108, 100, 0, 0] 0 none false =
      .ok (⟨RegClass.octetString,
        [4, 128, 104, 101, 108, 108, 111, 45, 119, 111, 114, 108, 100, 0, 0], 2, 13, -1⟩, 15) ∧
    octetStringValue ⟨RegClass.octetString,
        [4, 11, 104, 101, 108, 108, 111, 45, 119, 111, 114, 108, 100], 2, 13, -1⟩ =
      octetStringValue ⟨RegClass.octetString,
        [4, 128, 104, 101, 108, 108, 111, 45, 119, 111, 114, 108, 100, 0, 0], 2, 13, -1⟩ ∧
    octetStringValue ⟨RegClass.octetString,
        [4, 11, 104, 101, 108, 108, 111, 45, 119, 111, 114, 108, 100], 2, 13, -1⟩ =
      [104, 101, 108, 108, 111, 45, 119, 111, 114, 108, 100] ∧
    (∀ (data : List Nat) (index e : Nat),
      index + 1 < data.length →
      data.getD (index + 1) 0 = 128 →
      findPair data index = (e : Int) →
      get_value_slice data index = .ok (((index : Int) + 2, (e : Int)), (e : Int) + 2)) := by
  refine ⟨by decide, by decide, by decide, by decide, ?_⟩
  intro data index e hlen h80 hfind
  have hpair : pairAt data e = true := by
    unfold findPair at hfind
    cases hfp : (List.range data.length).find? (fun i => decide (index ≤ i) && pairAt data i) with
    | none =>
      rw [hfp] at hfind
      have h2 : (-1 : Int) = (e : Int) := hfind
      exact absurd h2 (by omega)
    | some i =>
      rw [hfp] at hfind
      have h2 : (i : Int) = (e : Int) := hfind
      have hie : i = e := by exact_mod_cast h2
      have hp := List.find?_some hfp
      rw [hie] at hp
      simp only [Bool.and_eq_true] at hp
      exact hp.2
  have he1 : e + 1 < data.length := by
    unfold pairAt at hpair
    simp only [Bool.and_eq_true, beq_iff_eq] at hpair
    exact (List.get?_eq_some.mp hpair.2).1
  rw [get_value_slice, decode_length]
  rw [if_neg (show ¬(data.length ≤ index + 1) from by omega), h80]
  norm_num
  rw [hfind]
  rw [if_neg (show ¬((e : Int) > (data.length : Int)) from by omega)]

/-- Witness for the general scanner part of C9 at the indefinite buffer,
whose first EOC marker sits at index 13. -/
theorem indefinite_equals_definite_witness :
    get_value_slice [4, 128, 104, 101, 108, 108, 111, 45, 119, 111, 114, 108, 100, 0, 0] 0 =
      .ok (((0 : Int) + 2, ((13 : Nat) : Int)), ((13 : Nat) : Int) + 2) :=
  indefinite_equals_definite.2.2.2.2
    [4, 128, 104, 101, 108, 108, 111, 45, 119, 111, 114, 108, 100, 0, 0] 0 13
    (by norm_num) (by decide) (by decide)

lemma land127_eq_mod (v : Nat) : v &&& 127 = v % 128 := by
  have := Nat.and_pow_two_sub_one_eq_mod v 7
  norm_num at this
  exact this

lemma shiftRight7_eq_div (v : Nat) : v >>> 7 = v / 128 := by
  rw [Nat.shiftRight_eq_div_pow]

lemma leVal128_cons (x : Nat) (l : List Nat) :
    leVal128 (x :: l) = leVal128 l * 128 + x := rfl

lemma dlvGo_leVal (l : List Nat) : ∀ i, dlvGo l i = 128 ^ i * leVal128 l := by
  induction l with
  | nil => intro i; simp [dlvGo, leVal128]
  | cons d ds ih =>
    intro i
    rw [dlvGo, ih (i + 1), leVal128_cons]
    ring

lemma elvLoop_mem (v : Nat) : ∀ g ∈ elvLoop v, 127 < g := by
  induction v using Nat.strong_induction_on with
  | _ v ih =>
    rw [elvLoop]
    by_cases h : v = 0
    · simp [h]
    · rw [if_neg h]
      intro g hg
      rcases List.mem_cons.mp hg with hg | hg
      · subst hg
        have hlt : v &&& 127 < 128 := by rw [land127_eq_mod]; omega
        rw [Nat.lor_comm, lor128_eq_add _ hlt]
        omega
      · exact ih (v >>> 7)
          (by rw [shiftRight7_eq_div]
              exact Nat.div_lt_self (Nat.pos_of_ne_zero h) (by norm_num)) g hg

lemma elvLoop_ne_nil (v : Nat) (h : 0 < v) : elvLoop v ≠ [] := by
  rw [elvLoop, if_neg (by omega)]
  simp

lemma leVal128_elvLoop (v : Nat) :
    leVal128 (List.map (fun g => g ^^^ 128) (elvLoop v)) = v := by
  induction v using Nat.strong_induction_on with
  | _ v ih =>
    rw [elvLoop]
    by_cases h : v = 0
    · simp [h, leVal128]
    · rw [if_neg h]
      rw [List.map_cons, leVal128_cons]
      have hlt : v &&& 127 < 128 := by rw [land127_eq_mod]; omega
      rw [Nat.lor_comm, lor128_eq_add _ hlt, add128_xor _ hlt]
      rw [ih (v >>> 7)
        (by rw [shiftRight7_eq_div]
            exact Nat.div_lt_self (Nat.pos_of_ne_zero h) (by norm_num))]
      rw [shiftRight7_eq_div, land127_eq_mod]
      omega

lemma decodeLargeLoop_spec (gs : List Nat) :
    ∀ (c last : Nat) (rest buf : List Nat), 127 < c → (∀ g ∈ gs, 127 < g) → last ≤ 127 →
    decodeLargeLoop c (gs ++ last :: rest) buf =
      some (buf ++ (c :: gs).map (fun g => g ^^^ 128), last) := by
  induction gs with
  | nil =>
    intro c last rest buf hc hgs hlast
    cases rest with
    | nil => simp [decodeLargeLoop, hc, Nat.not_lt.mpr hlast]
    | cons r rs => simp [decodeLargeLoop, hc, Nat.not_lt.mpr hlast]
  | cons g gs ih =>
    intro c last rest buf hc hgs hlast
    rw [List.cons_append, decodeLargeLoop, if_pos hc]
    rw [ih g last rest (buf ++ [c ^^^ 128]) (hgs g (List.mem_cons_self g gs))
      (fun x hx => hgs x (List.mem_cons_of_mem g hx)) hlast]
    simp

/-- C6: the VLQ codec used for large Object-Identifier sub-identifiers is
an exact inverse pair on every non-negative integer: feeding the first
octet of `encode_large_value n` as the current character and the remaining
octets as the stream, `decode_large_value` returns exactly `n` (the
boundary values 127, 128, 16383 and 16384 are instances of the universal
statement). -/
theorem vlq_roundtrip (n : Nat) :
    encode_large_value n ≠ [] ∧
    decode_large_value ((encode_large_value n).headD 0) ((encode_large_value n).tail) =
      some n := by
  by_cases h : n ≤ 127
  · constructor
    · simp [encode_large_value, h]
    · simp [encode_large_value, h, decode_large_value, decodeLargeLoop,
        Nat.not_lt.mpr h, dlvGo]
  · have hv : 0 < n >>> 7 := by rw [shiftRight7_eq_div]; omega
    have hne := elvLoop_ne_nil (n >>> 7) hv
    have hgrp : ∀ g ∈ (elvLoop (n >>> 7)).reverse, 127 < g := by
      intro g hg
      exact elvLoop_mem (n >>> 7) g (List.mem_reverse.mp hg)
    have hE : encode_large_value n =
        (elvLoop (n >>> 7)).reverse ++ [n &&& 127] := by
      rw [encode_large_value, if_neg h, List.reverse_cons]
    cases hrev : (elvLoop (n >>> 7)).reverse with
    | nil =>
      exact absurd (by simpa using congrArg List.reverse hrev) hne
    | cons c gs =>
      have hc : 127 < c := hgrp c (by rw [hrev]; exact List.mem_cons_self c gs)
      have hgs : ∀ g ∈ gs, 127 < g := fun g hg =>
        hgrp g (by rw [hrev]; exact List.mem_cons_of_mem c hg)
      have hlast : n &&& 127 ≤ 127 := by rw [land127_eq_mod]; omega
      rw [hE, hrev]
      constructor
      · simp
      · rw [List.cons_append, List.headD_cons, List.tail_cons]
        rw [decode_large_value, decodeLargeLoop_spec gs c (n &&& 127) [] [] hc hgs hlast]
        show some ((n &&& 127) + dlvGo (((c :: gs).map (fun g => g ^^^ 128)).reverse) 1) =
          some n
        have hmap : ((c :: gs).map (fun g => g ^^^ 128)).reverse =
            List.map (fun g => g ^^^ 128) (elvLoop (n >>> 7)) := by
          rw [← hrev, List.map_reverse, List.reverse_reverse]
        rw [hmap, dlvGo_leVal, leVal128_elvLoop, pow_one, land127_eq_mod, shiftRight7_eq_div]
        exact congrArg some (by omega)

lemma zipLongest_nil_right (xs : List Nat) :
    zipLongest xs [] = xs.map (fun v => (some v, none)) := by
  induction xs with
  | nil => rfl
  | cons a as ih => rw [zipLongest, ih, List.map_cons]

lemma oid_tail_spec (x : List Nat) : ∀ y : List Nat, y.length < x.length →
    ((zipLongest x y).dropWhile (fun p => p.1 == p.2) ≠ [] ∧
      (((zipLongest x y).dropWhile (fun p => p.1 == p.2)).all (fun p => p.2 == none)) =
        isLeadingOf y x) := by
  induction x with
  | nil => intro y hy; simp at hy
  | cons a as ih =>
    intro y hy
    cases y with
    | nil =>
      rw [zipLongest_nil_right, List.map_cons]
      rw [List.dropWhile_cons_of_neg (by simp)]
      constructor
      · simp
      · rw [isLeadingOf]
        simp [List.all_eq_true]
    | cons b bs =>
      have hlb : bs.length < as.length := by
        simp only [List.length_cons] at hy; omega
      rw [zipLongest]
      by_cases hab : a = b
      · rw [List.dropWhile_cons_of_pos (by simp [hab])]
        obtain ⟨hne, hall⟩ := ih bs hlb
        refine ⟨hne, ?_⟩
        rw [hall, isLeadingOf]
        simp [hab]
      · rw [List.dropWhile_cons_of_neg (by simp [hab])]
        constructor
        · simp
        · rw [isLeadingOf]
          simp [hab]
          intro h
          exact absurd h.symm hab

/-- C8: `__contains__` on ObjectIdentifier node sequences (`a in b`,
modelled as `oidContains b a`): equal-length sequences are contained iff
they are equal, a longer `b` never contains `a`, and otherwise containment
holds exactly when `b`'s node sequence is a leading segment of `a`'s.
In particular 1.2.3.4 in 1.2.3 holds, 1.2.3 in 1.2.3.4 fails, containment
is reflexive, and the divergent sibling 1.2.3.5 in 1.2.3.4 fails; the
`zip(*tail)` unpacking never crashes in the reachable branch (the result is
always `some`). -/
theorem oid_containment_characterisation :
    (∀ x y : List Nat, oidContains y x =
      some (if x.length = y.length then x == y
        else if x.length < y.length then false
        else isLeadingOf y x)) ∧
    oidContains [1, 2, 3] [1, 2, 3, 4] = some true ∧
    oidContains [1, 2, 3, 4] [1, 2, 3] = some false ∧
    oidContains [1, 2, 3] [1, 2, 3] = some true ∧
    oidContains [1, 2, 3, 4] [1, 2, 3, 5] = some false := by
  refine ⟨?_, by decide, by decide, by decide, by decide⟩
  intro x y
  rw [oidContains]
  by_cases h1 : x.length = y.length
  · simp [h1]
  · rw [if_neg h1, if_neg h1]
    by_cases h2 : x.length < y.length
    · simp [h2]
    · rw [if_neg h2, if_neg h2]
      have hlen : y.length < x.length := by omega
      obtain ⟨hne, hall⟩ := oid_tail_spec x y hlen
      rw [if_neg hne, hall]

/-- C7: for each of the eleven sample integers, the content encoding
produced by `Integer.encode_raw` is the minimal big-endian
two's-complement representation: it is at least one octet (shown
explicitly), it re-decodes to the original value under the signed
`int.from_bytes`, and it never begins with a redundant 0x00 octet followed
by a clear high bit nor a redundant 0xFF octet followed by a set high
bit. -/
theorem integer_minimal_encoding_examples :
    (integerEncode (-1) = [255] ∧ intFromBytes [255] true = (-1) ∧
      redundantLead [255] = false) ∧
    (integerEncode 0 = [0] ∧ intFromBytes [0] true = 0 ∧
      redundantLead [0] = false) ∧
    (integerEncode 1 = [1] ∧ intFromBytes [1] true = 1 ∧
      redundantLead [1] = false) ∧
    (integerEncode 127 = [127] ∧ intFromBytes [127] true = 127 ∧
      redundantLead [127] = false) ∧
    (integerEncode 128 = [0, 128] ∧ intFromBytes [0, 128] true = 128 ∧
      redundantLead [0, 128] = false) ∧
    (integerEncode (-128) = [128] ∧ intFromBytes [128] true = (-128) ∧
      redundantLead [128] = false) ∧
    (integerEncode (-129) = [255, 127] ∧ intFromBytes [255, 127] true = (-129) ∧
      redundantLead [255, 127] = false) ∧
    (integerEncode 32768 = [0, 128, 0] ∧ intFromBytes [0, 128, 0] true = 32768 ∧
      redundantLead [0, 128, 0] = false) ∧
    (integerEncode (-32769) = [255, 127, 255] ∧ intFromBytes [255, 127, 255] true = (-32769) ∧
      redundantLead [255, 127, 255] = false) ∧
    (integerEncode 1913359423 = [114, 11, 140, 63] ∧ intFromBytes [114, 11, 140, 63] true = 1913359423 ∧
      redundantLead [114, 11, 140, 63] = false) ∧
    (integerEncode (-1913359423) = [141, 244, 115, 193] ∧ intFromBytes [141, 244, 115, 193] true = (-1913359423) ∧
      redundantLead [141, 244, 115, 193] = false) := by
  exact ⟨⟨by simp +decide [integerEncode, intLoop, stripLoop], by decide, by decide⟩,
    ⟨by simp +decide [integerEncode, intLoop, stripLoop], by decide, by decide⟩,
    ⟨by simp +decide [integerEncode, intLoop, stripLoop], by decide, by decide⟩,
    ⟨by simp +decide [integerEncode, intLoop, stripLoop], by decide, by decide⟩,
    ⟨by simp +decide [integerEncode, intLoop, stripLoop], by decide, by decide⟩,
    ⟨by simp +decide [integerEncode, intLoop, stripLoop], by decide, by decide⟩,
    ⟨by simp +decide [integerEncode, intLoop, stripLoop], by decide, by decide⟩,
    ⟨by simp +decide [integerEncode, intLoop, stripLoop], by decide, by decide⟩,
    ⟨by simp +decide [integerEncode, intLoop, stripLoop], by decide, by decide⟩,
    ⟨by simp +decide [integerEncode, intLoop, stripLoop], by decide, by decide⟩,
    ⟨by simp +decide [integerEncode, intLoop, stripLoop], by decide, by decide⟩⟩

lemma land128_zero_iff (b : Nat) (hb : b < 256) : b &&& 128 = 0 ↔ b < 128 := by
  revert hb
  revert b
  decide

lemma intLoop_fin (r : Int) : (intLoop r).2 = 0 ∨ (intLoop r).2 = -1 := by
  induction r using intLoop.induct with
  | case1 r h => rw [intLoop, if_pos h]; exact h
  | case2 r h r2 ih =>
    rw [intLoop, if_neg h]
    simpa using ih

lemma intLoop_last (r : Int) :
    ((r % 256).toNat :: (intLoop r).1).getLast? = some (((intLoop r).2 % 256).toNat) := by
  induction r using intLoop.induct with
  | case1 r h => rw [intLoop, if_pos h]; simp
  | case2 r h r2 ih =>
    rw [intLoop, if_neg h]
    show ((r % 256).toNat :: ((r / 256) % 256).toNat :: (intLoop (r / 256)).1).getLast? =
      some (((intLoop (r / 256)).2 % 256).toNat)
    rw [List.getLast?_cons_cons]
    exact ih

lemma intLoop_mem_lt (r : Int) : ∀ x ∈ (intLoop r).1, x < 256 := by
  induction r using intLoop.induct with
  | case1 r h => rw [intLoop, if_pos h]; intro x hx; simp at hx
  | case2 r h r2 ih =>
    rw [intLoop, if_neg h]
    show ∀ x ∈ ((r / 256) % 256).toNat :: (intLoop (r / 256)).1, x < 256
    intro x hx
    rcases List.mem_cons.mp hx with hx | hx
    · subst hx
      have h1 : 0 ≤ (r / 256) % 256 := Int.emod_nonneg _ (by norm_num)
      have h2 : (r / 256) % 256 < 256 := Int.emod_lt_of_pos _ (by norm_num)
      omega
    · exact ih x hx

lemma leVal_cons (x : Nat) (l : List Nat) : leVal (x :: l) = leVal l * 256 + x := rfl

lemma intLoop_reconstruct (r : Int) :
    (leVal ((r % 256).toNat :: (intLoop r).1) : Int) +
      256 ^ ((intLoop r).1.length + 1) * (intLoop r).2 = r := by
  induction r using intLoop.induct with
  | case1 r h =>
    rw [intLoop, if_pos h]
    show (leVal [(r % 256).toNat] : Int) + 256 ^ (([] : List Nat).length + 1) * r = r
    rcases h with h | h <;> subst h <;> simp [leVal]
  | case2 r h r2 ih =>
    rw [intLoop, if_neg h]
    show (leVal ((r % 256).toNat :: ((r / 256) % 256).toNat :: (intLoop (r / 256)).1) : Int) +
      256 ^ ((((r / 256) % 256).toNat :: (intLoop (r / 256)).1).length + 1) *
        (intLoop (r / 256)).2 = r
    have hr2 : r2 = r / 256 := rfl
    rw [hr2] at ih
    rw [leVal_cons, List.length_cons]
    have hcast : ((r % 256).toNat : Int) = r % 256 :=
      Int.toNat_of_nonneg (Int.emod_nonneg r (by norm_num))
    have hde : 256 * (r / 256) + r % 256 = r := Int.ediv_add_emod r 256
    push_cast
    rw [hcast]
    rw [pow_succ]
    linear_combination 256 * ih + hde

lemma beVal_acc (t : List Nat) : ∀ acc : Nat,
    t.foldl (fun a b => a * 256 + b) acc = acc * 256 ^ t.length + beVal t := by
  induction t with
  | nil => intro acc; simp [beVal]
  | cons b bs ih =>
    intro acc
    rw [List.foldl_cons, ih (acc * 256 + b)]
    have hb : beVal (b :: bs) = b * 256 ^ bs.length + beVal bs := by
      rw [beVal, List.foldl_cons]
      have := ih (0 * 256 + b)
      simpa using this
    rw [hb, List.length_cons]
    ring

lemma beVal_cons (a : Nat) (t : List Nat) :
    beVal (a :: t) = a * 256 ^ t.length + beVal t := by
  rw [beVal, List.foldl_cons]
  have := beVal_acc t (0 * 256 + a)
  simpa using this

lemma beVal_reverse (l : List Nat) : beVal l.reverse = leVal l := by
  rw [beVal, leVal, List.foldl_reverse]

lemma stripLoop_ne_nil (l : List Nat) (h : l ≠ []) : stripLoop l ≠ [] := by
  induction l using stripLoop.induct with
  | case1 a b rest hc ih => rw [stripLoop, if_pos hc]; exact ih (by simp)
  | case2 a b rest hc => rw [stripLoop, if_neg hc]; simp
  | case3 l hl =>
    cases l with
    | nil => exact absurd rfl h
    | cons x xs =>
      cases xs with
      | nil => simp [stripLoop]
      | cons y ys => exact (hl x y ys rfl).elim

lemma stripLoop_len_le (l : List Nat) : (stripLoop l).length ≤ l.length := by
  induction l using stripLoop.induct with
  | case1 a b rest hc ih =>
    rw [stripLoop, if_pos hc]
    simp only [List.length_cons]
    simp only [List.length_cons] at ih
    omega
  | case2 a b rest hc => rw [stripLoop, if_neg hc]
  | case3 l hl =>
    cases l with
    | nil => simp [stripLoop]
    | cons x xs =>
      cases xs with
      | nil => simp [stripLoop]
      | cons y ys => exact (hl x y ys rfl).elim

lemma stripLoop_preserves (l : List Nat) (hmem : ∀ x ∈ l, x < 256) :
    intFromBytes (stripLoop l) true = intFromBytes l true := by
  induction l using stripLoop.induct with
  | case1 a b rest hc ih =>
    rw [stripLoop, if_pos hc]
    rw [ih (fun x hx => hmem x (List.mem_cons_of_mem a hx))]
    have hb : b < 256 := hmem b (by simp)
    rcases hc with ⟨ha, hb0⟩ | ⟨ha, hb1⟩
    · have hblt : b < 128 := (land128_zero_iff b hb).mp hb0
      subst ha
      rw [intFromBytes, intFromBytes]
      rw [if_neg (show ¬(true = true ∧ 128 ≤ (b :: rest).headD 0) from by
          simp only [List.headD_cons]; omega),
        if_neg (show ¬(true = true ∧ 128 ≤ (0 :: b :: rest).headD 0) from by
          simp only [List.headD_cons]; omega)]
      rw [beVal_cons 0 (b :: rest)]
      simp
    · have hbge : 128 ≤ b := by
        rcases Nat.lt_or_ge b 128 with hlt | hge
        · exact absurd ((land128_zero_iff b hb).mpr hlt) hb1
        · exact hge
      subst ha
      rw [intFromBytes, intFromBytes]
      rw [if_pos (show true = true ∧ 128 ≤ (b :: rest).headD 0 from
          ⟨rfl, by simp only [List.headD_cons]; omega⟩),
        if_pos (show true = true ∧ 128 ≤ (255 :: b :: rest).headD 0 from
          ⟨rfl, by simp only [List.headD_cons]; norm_num⟩)]
      rw [beVal_cons 255 (b :: rest)]
      simp only [List.length_cons]
      push_cast
      ring
  | case2 a b rest hc => rw [stripLoop, if_neg hc]
  | case3 l hl =>
    cases l with
    | nil => rfl
    | cons x xs =>
      cases xs with
      | nil => rfl
      | cons y ys => exact (hl x y ys rfl).elim

lemma integerEncode_eq_strip (n : Int) :
    integerEncode n = stripLoop (((n % 256).toNat :: (intLoop n).1).reverse) := by
  have hlast := intLoop_last n
  have hcond : ¬((intLoop n).2 = 0 ∧
      ((n % 256).toNat :: (intLoop n).1).getLast? = some 128) := by
    rintro ⟨h0, hl⟩
    rw [hlast, h0] at hl
    simp at hl
  show stripLoop ((if (intLoop n).2 = 0 ∧
      ((n % 256).toNat :: (intLoop n).1).getLast? = some 128
    then ((n % 256).toNat :: (intLoop n).1) ++ [0]
    else ((n % 256).toNat :: (intLoop n).1)).reverse) =
    stripLoop (((n % 256).toNat :: (intLoop n).1).reverse)
  rw [if_neg hcond]

lemma integerEncode_ne_nil (n : Int) : integerEncode n ≠ [] := by
  rw [integerEncode_eq_strip]
  apply stripLoop_ne_nil
  simp

lemma integerEncode_roundtrip (n : Int) : intFromBytes (integerEncode n) true = n := by
  rw [integerEncode_eq_strip]
  rw [stripLoop_preserves _ (by
    intro x hx
    rw [List.mem_reverse] at hx
    rcases List.mem_cons.mp hx with hx | hx
    · subst hx
      have h1 : 0 ≤ n % 256 := Int.emod_nonneg n (by norm_num)
      have h2 : n % 256 < 256 := Int.emod_lt_of_pos n (by norm_num)
      omega
    · exact intLoop_mem_lt n x hx)]
  have hrec := intLoop_reconstruct n
  have hlast := intLoop_last n
  have hfin := intLoop_fin n
  rw [intFromBytes]
  rw [List.headD_eq_head?, List.head?_reverse, hlast]
  rw [beVal_reverse, List.length_reverse, List.length_cons]
  cases hfin with
  | inl h0 =>
    rw [h0]
    rw [if_neg (by norm_num)]
    rw [h0] at hrec
    simpa using hrec
  | inr h1 =>
    rw [h1]
    rw [if_pos ⟨rfl, by norm_num⟩]
    rw [h1] at hrec
    linarith [hrec]

lemma intLoop_len_le (m : Nat) : ∀ r : Int, -(2 ^ (8 * m)) ≤ r → r < 2 ^ (8 * m) →
    (intLoop r).1.length ≤ m := by
  induction m with
  | zero =>
    intro r h1 h2
    norm_num at h1 h2
    have hr : r = 0 ∨ r = -1 := by omega
    rw [intLoop, if_pos hr]
    simp
  | succ m ih =>
    intro r h1 h2
    by_cases h : r = 0 ∨ r = -1
    · rw [intLoop, if_pos h]; simp
    · rw [intLoop, if_neg h]
      show (((r / 256) % 256).toNat :: (intLoop (r / 256)).1).length ≤ m + 1
      rw [List.length_cons]
      have hc : (0 : Int) < 2 ^ (8 * m) := by positivity
      have e1 : (2 : Int) ^ (8 * (m + 1)) = 256 * 2 ^ (8 * m) := by
        rw [show 8 * (m + 1) = 8 * m + 8 from by ring, pow_add]
        ring
      rw [e1] at h1 h2
      have hub : r / 256 < 2 ^ (8 * m) := by omega
      have hlb : -(2 ^ (8 * m)) ≤ r / 256 := by omega
      have := ih (r / 256) hlb hub
      omega

lemma integerEncode_len_le (n : Int) (h1 : -(2 ^ 992) ≤ n) (h2 : n < 2 ^ 992) :
    (integerEncode n).length ≤ 125 := by
  rw [integerEncode_eq_strip]
  have hs := stripLoop_len_le (((n % 256).toNat :: (intLoop n).1).reverse)
  rw [List.length_reverse, List.length_cons] at hs
  have hb := intLoop_len_le 124 n
    (by rw [show 8 * 124 = 992 from rfl]; exact h1)
    (by rw [show 8 * 124 = 992 from rfl]; exact h2)
  omega

lemma pySlice_framed (hd : Nat) (enc content : List Nat) :
    pySlice (hd :: enc ++ content) (1 + (enc.length : Int))
      (1 + (enc.length : Int) + content.length) = content := by
  have h := pySlice_drop_all (hd :: enc) content
  simp only [List.length_cons] at h
  rw [show ((enc.length + 1 : Nat) : Int) = 1 + (enc.length : Int) from by push_cast; ring]
    at h
  rw [List.cons_append] at h
  exact h

lemma decode_framed (hd : Nat) (content : List Nat) (t : TypeInfo) (c : RegClass)
    (hL : content.length < 256 ^ 126)
    (ht : TypeInfo.from_bytes hd = .ok t)
    (hr : registryGet t.cls t.tag t.nature = some c)
    (hc : c ≠ RegClass.unknownType) :
    decode (hd :: encode_length (.definite content.length) ++ content) 0 none false =
      .ok (⟨c, hd :: encode_length (.definite content.length) ++ content,
        1 + ((encode_length (.definite content.length)).length : Int),
        1 + ((encode_length (.definite content.length)).length : Int) + content.length, -1⟩,
      1 + ((encode_length (.definite content.length)).length : Int) + content.length) := by
  rw [decode]
  rw [if_neg (by simp)]
  have hg : (hd :: encode_length (.definite content.length) ++ content).getD 0 0 = hd := rfl
  rw [hg, ht]
  simp only [hr, Option.getD_some]
  rw [get_value_slice_framed hd content hL]
  simp [if_neg hc]

lemma toByte_universal_primitive (tag : Nat) :
    TypeInfo.toByte ⟨TypeClass.universal, TypeNature.primitive, tag⟩ = tag := by
  simp [TypeInfo.toByte, clsBits, natureBits]

lemma bytesOf_octetString (oc : List Nat) :
    bytesOf (mkOctetString oc) = some (4 :: (encode_length (.definite oc.length) ++ oc)) := by
  by_cases hoc : oc = []
  · subst hoc
    decide
  · have ht : truthy (.pyBytes oc) = true := by simp [truthy, hoc]
    simp [bytesOf, mkOctetString, hoc, rawBytesOf, encodeRaw, ht,
      TYPECLASS, natureHead, TAG, toByte_universal_primitive]

lemma bytesOf_integer (n : Int) :
    bytesOf (mkInteger n) =
      some (2 :: (encode_length (.definite (integerEncode n).length) ++ integerEncode n)) := by
  have hne := integerEncode_ne_nil n
  have ht : truthy (.pyBytes (integerEncode n)) = true := by simp [truthy, hne]
  simp [bytesOf, mkInteger, rawBytesOf, encodeRaw, ht,
    TYPECLASS, natureHead, TAG, toByte_universal_primitive]

lemma bytesOf_boolean (b : Bool) :
    bytesOf (mkBoolean b) = some [1, 1, if b then 1 else 0] := by
  cases b <;> decide

/-- C1 (counterexample): the round-trip claim fails for the registered
variant `Utf8String` with the valid native value "x" (any `str`): its
default `encode_raw` returns the `str` itself, and `__bytes__` then
concatenates bytes with str, a Python `TypeError`; so `bytes_of` produces
no encoding at all, let alone one that decodes back to an equal value. -/
theorem utf8string_roundtrip_fails :
    bytesOf (mkUtf8String ("x")) = none := by
  decide

/-- C1 (amended): for the primitive variants whose content codecs produce
bytes - Boolean, Null, Integer and OctetString - decoding the full TLV
encoding of a value built from a valid native value yields a Value of the
same class whose decoded content equals the native value, and the returned
next-index equals the length of the encoded bytes.  (Integer is bounded by
2^992 and OctetString content length by 256^100 so that the length octets
stay in the decodable range; both bounds far exceed any practical value.) -/
theorem roundtrip_primitive_variants (b : Bool) (oc : List Nat) (n : Int)
    (hoc : oc.length < 256 ^ 100)
    (hn1 : -(2 ^ 992) ≤ n) (hn2 : n < 2 ^ 992) :
    (∃ bs v, bytesOf (mkBoolean b) = some bs ∧
      decode bs 0 none false = .ok (v, (bs.length : Int)) ∧
      v.klass = RegClass.boolean ∧ booleanValue v = b) ∧
    (∃ bs v, bytesOf mkNull = some bs ∧
      decode bs 0 none false = .ok (v, (bs.length : Int)) ∧
      v.klass = RegClass.null_ ∧ contentBytes v = []) ∧
    (∃ bs v, bytesOf (mkOctetString oc) = some bs ∧
      decode bs 0 none false = .ok (v, (bs.length : Int)) ∧
      v.klass = RegClass.octetString ∧ octetStringValue v = oc) ∧
    (∃ bs v, bytesOf (mkInteger n) = some bs ∧
      decode bs 0 none false = .ok (v, (bs.length : Int)) ∧
      v.klass = RegClass.integer ∧ integerValue v = n) := by
  refine ⟨?_, ?_, ?_, ?_⟩
  · cases b with
    | false =>
      exact ⟨[1, 1, 0], ⟨RegClass.boolean, [1, 1, 0], 2, 3, -1⟩,
        by decide, by decide, rfl, by decide⟩
    | true =>
      exact ⟨[1, 1, 1], ⟨RegClass.boolean, [1, 1, 1], 2, 3, -1⟩,
        by decide, by decide, rfl, by decide⟩
  · exact ⟨[5, 0], ⟨RegClass.null_, [5, 0], 2, 2, -1⟩,
      by decide, by decide, rfl, by decide⟩
  · have hb : oc.length < 256 ^ 126 :=
      lt_of_lt_of_le hoc (Nat.pow_le_pow_right (by norm_num) (by norm_num))
    refine ⟨4 :: encode_length (.definite oc.length) ++ oc,
      ⟨RegClass.octetString, 4 :: encode_length (.definite oc.length) ++ oc,
        1 + ((encode_length (.definite oc.length)).length : Int),
        1 + ((encode_length (.definite oc.length)).length : Int) + oc.length, -1⟩,
      bytesOf_octetString oc, ?_, rfl, ?_⟩
    · have hlen : ((4 :: encode_length (.definite oc.length) ++ oc).length : Int) =
          1 + ((encode_length (.definite oc.length)).length : Int) + oc.length := by
        simp only [List.length_cons, List.length_append]
        push_cast
        ring
      rw [hlen]
      exact decode_framed 4 oc ⟨TypeClass.universal, TypeNature.primitive, 4⟩
        RegClass.octetString hb (by decide) (by decide) (by decide)
    · exact pySlice_framed 4 (encode_length (.definite oc.length)) oc
  · have hlen125 : (integerEncode n).length ≤ 125 := integerEncode_len_le n hn1 hn2
    have hb : (integerEncode n).length < 256 ^ 126 :=
      lt_of_le_of_lt hlen125 (by norm_num)
    refine ⟨2 :: encode_length (.definite (integerEncode n).length) ++ integerEncode n,
      ⟨RegClass.integer, 2 :: encode_length (.definite (integerEncode n).length) ++
          integerEncode n,
        1 + ((encode_length (.definite (integerEncode n).length)).length : Int),
        1 + ((encode_length (.definite (integerEncode n).length)).length : Int) +
          (integerEncode n).length, -1⟩,
      bytesOf_integer n, ?_, rfl, ?_⟩
    · have hlen : ((2 :: encode_length (.definite (integerEncode n).length) ++
            integerEncode n).length : Int) =
          1 + ((encode_length (.definite (integerEncode n).length)).length : Int) +
            (integerEncode n).length := by
        simp only [List.length_cons, List.length_append]
        push_cast
        ring
      rw [hlen]
      exact decode_framed 2 (integerEncode n) ⟨TypeClass.universal, TypeNature.primitive, 2⟩
        RegClass.integer hb (by decide) (by decide) (by decide)
    · rw [integerValue, contentBytes]
      show intFromBytes (pySlice
        (2 :: encode_length (.definite (integerEncode n).length) ++ integerEncode n)
        (1 + ((encode_length (.definite (integerEncode n).length)).length : Int))
        (1 + ((encode_length (.definite (integerEncode n).length)).length : Int) +
          (integerEncode n).length)) true = n
      rw [pySlice_framed 2 (encode_length (.definite (integerEncode n).length))
        (integerEncode n)]
      exact integerEncode_roundtrip n

/-- Witness for the amended C1 at `Boolean(True)`, `Null(None)`,
`OctetString(b"hi")` and `Integer(100)`. -/
theorem roundtrip_primitive_variants_witness :
    (∃ bs v, bytesOf (mkBoolean true) = some bs ∧
      decode bs 0 none false = .ok (v, (bs.length : Int)) ∧
      v.klass = RegClass.boolean ∧ booleanValue v = true) ∧
    (∃ bs v, bytesOf mkNull = some bs ∧
      decode bs 0 none false = .ok (v, (bs.length : Int)) ∧
      v.klass = RegClass.null_ ∧ contentBytes v = []) ∧
    (∃ bs v, bytesOf (mkOctetString [104, 105]) = some bs ∧
      decode bs 0 none false = .ok (v, (bs.length : Int)) ∧
      v.klass = RegClass.octetString ∧ octetStringValue v = [104, 105]) ∧
    (∃ bs v, bytesOf (mkInteger 100) = some bs ∧
      decode bs 0 none false = .ok (v, (bs.length : Int)) ∧
      v.klass = RegClass.integer ∧ integerValue v = 100) :=
  roundtrip_primitive_variants true [104, 105] 100 (by norm_num) (by norm_num) (by norm_num)
